import Mathlib

/-!
Verification development for the Knower repository (DOI-to-abstract
resolution cascade).  The definitions below are a shallow embedding of
the code in src/knower/AbstractFetcher.py, src/knower/DOIDownloader.py
and src/knower/utilities.py.  Machine-level Python behaviour (the re
module, str methods, dict insertion order) is modelled operationally
over List Char / association lists.
-/

namespace Knower

/-! ### Python regular-expression engine, specialised to the pattern
`XML_PREFIXED_TAG = (?:\s?\<{1}\/?.+?:{1}.+?\>\s?)+`
(AbstractFetcher.py line 46, DOIDownloader.py line 39).

The model follows the Python backtracking engine exactly for this one
pattern: `\s?` is greedy, `.+?` is lazy, `.` matches any character
except a newline, the group is repeated greedily, and matches are found
leftmost-first.  Python `\s` also matches some non-ASCII whitespace;
the inputs handled by this program are ASCII, for which the six
characters below are exactly the `\s` class. -/

def isPyWS (c : Char) : Bool :=
  c = ' ' || c = '\t' || c = '\n' || c = '\r' || c = '\x0b' || c = '\x0c'

/-- Shortest-match step for a lazy `.+?` followed by a literal: having
already consumed one character, scan forward for the first occurrence
of the literal, failing on a newline (which `.` cannot match). -/
def lazyUpToAux (lit : Char) : List Char → Option (List Char)
  | [] => Option.none
  | c :: rest =>
    if c = lit then some rest
    else if c = '\n' then Option.none
    else lazyUpToAux lit rest

/-- Model of `.+?lit`: consume at least one non-newline character, then
the literal `lit`; lazy, so the first viable occurrence of `lit` wins. -/
def lazyUpTo (lit : Char) : List Char → Option (List Char)
  | [] => Option.none
  | c :: rest => if c = '\n' then Option.none else lazyUpToAux lit rest

/-- Backtracking scan for `.+?:.+?\>` after its first character has been
consumed: try each candidate `:` in order; for each, the second lazy
part must reach a `>`; on failure the first `.+?` extends past the
candidate `:` (`.` matches `:` as well). -/
def colonScan : List Char → Option (List Char)
  | [] => Option.none
  | c :: rest =>
    if c = ':' then
      match lazyUpTo '>' rest with
      | some r => some r
      | Option.none => colonScan rest
    else if c = '\n' then Option.none
    else colonScan rest

/-- Model of `.+?:{1}.+?\>`: at least one non-newline character, a
colon, at least one non-newline character, then `>`. -/
def matchColonGt : List Char → Option (List Char)
  | [] => Option.none
  | c :: rest => if c = '\n' then Option.none else colonScan rest

/-- Model of `\/?.+?:{1}.+?\>` (the part after `\<{1}`): the greedy
optional `/` is tried first; if the remainder fails with the `/`
consumed, the `/` is instead consumed by the first `.+?`. -/
def matchBody : List Char → Option (List Char)
  | [] => Option.none
  | c :: rest =>
    if c = '/' then
      match matchColonGt rest with
      | some r => some r
      | Option.none => matchColonGt (c :: rest)
    else matchColonGt (c :: rest)

/-- Greedy trailing `\s?`: nothing follows it in the group, so it
consumes one whitespace character whenever one is present. -/
def eatWS1 : List Char → List Char
  | [] => []
  | c :: rest => if isPyWS c then rest else c :: rest

/-- One iteration of the group `\s?\<{1}\/?.+?:{1}.+?\>\s?` starting at
the head of the list.  The leading greedy `\s?` can only help when the
next character is `<` (whitespace is never `<`, so the choice is
forced). -/
def matchGroup : List Char → Option (List Char)
  | '<' :: rest => (matchBody rest).map eatWS1
  | c :: '<' :: rest =>
    if isPyWS c then (matchBody rest).map eatWS1 else Option.none
  | _ => Option.none

/-- Greedy `+` over the group, fuelled.  Nothing follows the `+` in the
pattern, so each iteration keeps its first-priority match and the
repetition simply stops when an iteration fails.  Every successful
iteration consumes at least five characters, so fuel equal to the list
length never runs out before the natural end. -/
def matchPlusF : Nat → List Char → Option (List Char)
  | 0, _ => Option.none
  | n + 1, cs =>
    match matchGroup cs with
    | Option.none => Option.none
    | some r =>
      match matchPlusF n r with
      | some r2 => some r2
      | Option.none => some r

/-- Full match of `XML_PREFIXED_TAG` at the head of the list, returning
the remainder after the match. -/
def matchPlus (cs : List Char) : Option (List Char) :=
  matchPlusF cs.length cs

/-- Model of `re.split(XML_PREFIXED_TAG, s)`: scan left to right; at
each position try the pattern; on a match, close the current fragment
and continue after the match, otherwise keep the character.  Fuel
equal to the list length suffices since every step consumes at least
one character; the fuel-zero case is only reached with an empty rest
and agrees with the empty-list case. -/
def splitTagsF : Nat → List Char → List Char → List (List Char)
  | 0, rest, cur => [cur.reverse ++ rest]
  | _ + 1, [], cur => [cur.reverse]
  | n + 1, c :: rest, cur =>
    match matchPlus (c :: rest) with
    | some r => cur.reverse :: splitTagsF n r []
    | Option.none => splitTagsF n rest (c :: cur)

def splitTags (cs : List Char) : List (List Char) :=
  splitTagsF cs.length cs []

/-- Whether some suffix of the list begins a match of the tag pattern,
i.e. whether the string contains a substring matched by
`XML_PREFIXED_TAG`. -/
def hasTag : List Char → Bool
  | [] => false
  | c :: rest => (matchGroup (c :: rest)).isSome || hasTag rest

/-! ### The abstract text parser
`parse_abstract_from_incomplete_XML_str` (AbstractFetcher.py lines
59-68; an identical copy sits in DOIDownloader.py lines 52-60).
The Python dict is modelled as an association list with Python
insertion semantics: updating an existing key keeps its position, a
new key is appended. -/

/-- Python `s.endswith(".")`. -/
def endsDot (s : String) : Bool :=
  match s.data.getLast? with
  | some c => c = '.'
  | Option.none => false

/-- Python `" ".join(l)`. -/
def joinSp : List String → String
  | [] => ""
  | [s] => s
  | s :: rest => s ++ " " ++ joinSp rest

/-- Python dict item assignment `d[k] = v`: overwrite in place when the
key exists, append otherwise. -/
def dictInsert (d : List (String × String)) (k v : String) :
    List (String × String) :=
  if d.any (fun p => p.1 == k) then
    d.map (fun p => if p.1 == k then (k, v) else p)
  else d ++ [(k, v)]

/-- Python dict lookup `d.get(k)`. -/
def lookupD {α : Type} (d : List (String × α)) (k : String) : Option α :=
  (d.find? (fun p => p.1 == k)).map (fun p => p.2)

/-- The fragment list: `[x for x in filter(None, re.split(XML_PREFIXED_TAG,
abstract_txt))]` — split on the tag pattern and drop empty strings. -/
def fragmentsOf (t : String) : List String :=
  ((splitTags t.data).map String.mk).filter (fun s => !(s == ""))

/-- The labelling loop of the parser: for each adjacent fragment pair,
if the second ends with a period and the first does not, record
first -> second in the dict. -/
def addLabels : List String → List (String × String) → List (String × String)
  | a :: b :: rest, d =>
    addLabels (b :: rest)
      (if endsDot b && !(endsDot a) then dictInsert d a b else d)
  | _, d => d

/-- The parser: split the raw abstract on the pseudo-XML tag pattern,
join the non-empty fragments into `full_text`, then apply the
adjacency labelling heuristic. -/
def parse_abstract_from_incomplete_XML_str (abstract_txt : String) :
    List (String × String) :=
  addLabels (fragmentsOf abstract_txt)
    [("full_text", joinSp (fragmentsOf abstract_txt))]

/-! ### URL builder
`doi2url` (AbstractFetcher.py lines 50-56, utilities.py lines 98-104)
over the static table `DOI_2_DOMAIN` (utilities.py lines 24-31) and
`as_HTTPS_URL` (utilities.py lines 37-49).  A missing key raises
`KeyError` in Python (the `ConfigurationError` of the spec taxonomy),
modelled as `Option.none`. -/

/-- Python `str.upper()` (ASCII inputs). -/
def pyUpper (s : String) : String := String.mk (s.data.map Char.toUpper)

/-- Python `template.format(arg)` for templates with one positional
slot: replace the first brace pair with the argument. -/
def substSlot : List Char → List Char → List Char
  | [], _ => []
  | '\x7b' :: '\x7d' :: rest, arg => arg ++ rest
  | c :: rest, arg => c :: substSlot rest arg

def pyFormat1 (template arg : String) : String :=
  String.mk (substSlot template.data arg.data)

/-- Python f-string rendering of one query parameter pair. -/
def renderParam (p : String × String) : String := p.1 ++ "=" ++ p.2

/-- Model of `as_HTTPS_URL(*parts, **url_params)`. -/
def as_HTTPS_URL (parts : List String) (url_params : List (String × String)) :
    String :=
  let url := "https://" ++ String.intercalate "/" parts
  if url_params.isEmpty then url
  else url ++ "?" ++ String.intercalate "&" (url_params.map renderParam)

/-- The static domain-to-template table of utilities.py lines 24-31
(duplicated in DOIDownloader.py lines 31-38). -/
def DOI_2_DOMAIN : List (String × String) :=
  [ ("CROSSREF", "api.crossref.org/v1/works/\x7b\x7d"),
    ("DOI", "doi.org/\x7b\x7d"),
    ("SPRINGER", "link.springer.com/article/\x7b\x7d"),
    ("TANDF", "www.tandfonline.com/doi/abs/\x7b\x7d"),
    ("WILEY", "onlinelibrary.wiley.com/doi/\x7b\x7d") ]

/-- Model of `doi2url(doi, domain)` with no extra query parameters, as
used throughout the fetch cascade.  `Option.none` models the KeyError
raised on an unknown domain key. -/
def doi2url (doi domain : String) : Option String :=
  (lookupD DOI_2_DOMAIN (pyUpper domain)).map
    (fun t => as_HTTPS_URL [pyFormat1 t doi] [])

/-- Modelled from the spec: AbstractFetcher.py imports `DOI_2_DOMAIN`
from constants.py, a file that is not part of the sources here, while
utilities.py and DOIDownloader.py carry the five-entry table above.
The spec (sections 3 and 4.4) requires the URL builder to also cover
publisher-specific variants, and `download_from_elsevier` calls
`doi2url(doi, "ELSEVIER")`, so the constants table is modelled as the
shared table extended with an ELSEVIER entry. -/
def DOI_2_DOMAIN_constants : List (String × String) :=
  DOI_2_DOMAIN ++ [("ELSEVIER", "api.elsevier.com/content/abstract/doi/\x7b\x7d")]

def doi2url_constants (doi domain : String) : Option String :=
  (lookupD DOI_2_DOMAIN_constants (pyUpper domain)).map
    (fun t => as_HTTPS_URL [pyFormat1 t doi] [])

/-- Total wrapper for the fetch model: the cascade only ever uses the
domain keys DOI and ELSEVIER, which are present in the constants
table, so the default is never reached. -/
def urlFor (doi domain : String) : String :=
  (doi2url_constants doi domain).getD ""

/-! ### HTTP layer and resolution cascade
`Downloader.get` (AbstractFetcher.py lines 77-88),
`AbstractFetcher.download` (lines 123-136) and the cascade methods
(lines 150-266).  External collaborators (the network, tldextract,
BeautifulSoup, ElementTree) are supplied as an environment of
functions; each GET is recorded as an event carrying its effective
request options, and the `responses` log grows by the corresponding
response. -/

structure HttpResponse where
  url : String
  text : String
  status_code : Nat
deriving DecidableEq, Repr

/-- Call sites of `Downloader.get` reachable from `fetch`: the landing
page request of `download_redirecting_page`, the publisher request of
`download_from_elsevier`, and the second-hop sciencedirect request of
`download_via_linkinghub`. -/
inductive CallSite
  | landing
  | elsevier
  | scidir
deriving DecidableEq, Repr

/-- One GET request together with the keyword options it was issued
with (after `download` has filled in the `setdefault` values). -/
structure ReqEvent where
  site : CallSite
  url : String
  allow_redirects : Bool
  timeout : Nat
deriving DecidableEq, Repr

/-- The mutable state of a `Downloader`: the append-only `responses`
log and the ordered list of GET events issued so far. -/
structure FetchState where
  responses : List HttpResponse
  trace : List ReqEvent
deriving DecidableEq, Repr

/-- External collaborators: the network (one deterministic response
per URL, final URL after redirects included), `tldextract.extract`
returning (subdomain, domain), the BeautifulSoup lookup
`soup.input.attrs["value"]` after URL-unquoting (`Option.none` models
the AttributeError when no input element exists), and the ElementTree
walk of `download_from_elsevier` returning the text of the first
`description`/`abstract` element (`Option.none` models the exception
raised when the walk runs off the iterator or the XML does not parse). -/
structure Env where
  respond : String → HttpResponse
  tldOf : String → String × String
  soupInputValue : String → Option String
  xmlWalk : String → Option String

/-- Python exceptions that the cascade can raise (all are re-raised by
`debug_or_raise` when `debugging` is false, the configuration modelled
here). -/
inductive PyErr
  | attributeError
  | assertionError
deriving DecidableEq, Repr

/-- The value of the local variable `abstract` inside
`download_redirecting_page`: `None`, a string from the Elsevier XML
walk, or the dict produced by `download_via_linkinghub`. -/
inductive AbsVal
  | emp
  | str (s : String)
  | dict (d : List (String × String))
deriving DecidableEq, Repr

/-- Python truthiness of `abstract` in `download_redirecting_page`. -/
def AbsVal.truthy : AbsVal → Bool
  | AbsVal.emp => false
  | AbsVal.str s => !(s == "")
  | AbsVal.dict d => !(d == [])

def SCI_DIR_URL : String :=
  "https://www.sciencedirect.com/science/article/abs/pii/"

/-- The event built by `AbstractFetcher.download`: `kwargs.setdefault`
gives `allow_redirects=True` and `timeout=10` unless the caller passed
explicit values. -/
def download_evt (site : CallSite) (url : String)
    (allow_redirects : Option Bool) (timeout : Option Nat) : ReqEvent :=
  ⟨site, url, allow_redirects.getD true, timeout.getD 10⟩

/-- Model of `Downloader.get`: issue the request, append the response
to the log and the event to the trace, and return the response (the
new last element of the log). -/
def Downloader.get (env : Env) (st : FetchState) (e : ReqEvent) :
    HttpResponse × FetchState :=
  (env.respond e.url,
   ⟨st.responses ++ [env.respond e.url], st.trace ++ [e]⟩)

/-- Replay a list of GET events against a state: the log grows by the
responses in event order. -/
def runEvents (env : Env) (st : FetchState) (evs : List ReqEvent) :
    FetchState :=
  ⟨st.responses ++ evs.map (fun e => env.respond e.url), st.trace ++ evs⟩

/-- Model of `download_from_elsevier` (AbstractFetcher.py lines
150-181): one GET against the Elsevier URL; on HTTP 200 walk the XML
for a `description`/`abstract` element, otherwise return `None`.
The result pairs the returned value (or raised exception) with the GET
events issued. -/
def download_from_elsevier (env : Env) (doi : String) :
    Except PyErr (Option String) × List ReqEvent :=
  let e := download_evt CallSite.elsevier (urlFor doi "ELSEVIER")
    Option.none Option.none
  let resp := env.respond e.url
  (if resp.status_code = 200 then
      match env.xmlWalk resp.text with
      | some s => Except.ok (some s)
      | Option.none => Except.error PyErr.attributeError
    else Except.ok Option.none,
   [e])

/-- Model of `re.findall(r"(?:\/pii\/)([^\?]*)", url)[0]`: the capture
of the first `/pii/` occurrence, everything after it up to a `?`. -/
def findPii : List Char → Option (List Char)
  | '/' :: 'p' :: 'i' :: 'i' :: '/' :: rest =>
    some (rest.takeWhile (fun c => !(c == '?')))
  | _ :: rest => findPii rest
  | [] => Option.none

/-- Model of `download_via_linkinghub` (AbstractFetcher.py lines
213-238): read the sciencedirect URL out of the landing page HTML,
extract the PII, issue the second-hop GET with `timeout=20`, and on
HTTP 200 parse the body; a missing input element raises
AttributeError and a failed assertion raises AssertionError, both
re-raised by `debug_or_raise`. -/
def download_via_linkinghub (env : Env) (page_contents : String) :
    Except PyErr (List (String × String)) × List ReqEvent :=
  match env.soupInputValue page_contents with
  | Option.none => (Except.error PyErr.attributeError, [])
  | some scidir_URL =>
    match findPii scidir_URL.data with
    | Option.none => (Except.error PyErr.assertionError, [])
    | some pii =>
      let e := download_evt CallSite.scidir (SCI_DIR_URL ++ String.mk pii)
        Option.none (some 20)
      let resp := env.respond e.url
      (if resp.status_code = 200 then
          Except.ok (parse_abstract_from_incomplete_XML_str resp.text)
        else Except.error PyErr.assertionError,
       [e])

/-- The landing-page GET event of `download_redirecting_page`:
`self.download(doi2url(doi))` with default options. -/
def landingEvt (doi : String) : ReqEvent :=
  download_evt CallSite.landing (urlFor doi "DOI") Option.none Option.none

/-- The landing-page response `landing_resp`. -/
def landingResp (env : Env) (doi : String) : HttpResponse :=
  env.respond (landingEvt doi).url

/-- The redirect condition of `download_redirecting_page` line 187:
`tldextract.extract(landing_resp.url)` has domain elsevier and
subdomain linkinghub. -/
def tldCond (env : Env) (doi : String) : Prop :=
  (env.tldOf (landingResp env doi).url).2 = "elsevier" ∧
  (env.tldOf (landingResp env doi).url).1 = "linkinghub"

instance (env : Env) (doi : String) : Decidable (tldCond env doi) := by
  unfold tldCond
  exact instDecidableAnd

/-- The guarded Elsevier step of `download_redirecting_page` lines
187-189: `download_from_elsevier` runs only under the redirect
condition, otherwise `abstract` stays `None` and no request is made. -/
def drpStep1 (env : Env) (doi : String) :
    Except PyErr (Option String) × List ReqEvent :=
  if tldCond env doi then download_from_elsevier env doi
  else (Except.ok Option.none, [])

/-- Model of `download_redirecting_page` (AbstractFetcher.py lines
183-195): GET the plain DOI resolver URL, inspect the final redirect
target with tldextract, call the Elsevier downloader only when the
domain is elsevier with subdomain linkinghub, and fall back to the
linkinghub scrape on the landing-page HTML when no truthy abstract was
obtained. -/
def download_redirecting_page (env : Env) (doi : String) :
    Except PyErr AbsVal × List ReqEvent :=
  match drpStep1 env doi with
  | (Except.error err, evs1) => (Except.error err, landingEvt doi :: evs1)
  | (Except.ok aOpt, evs1) =>
    let a : AbsVal :=
      match aOpt with
      | some s => AbsVal.str s
      | Option.none => AbsVal.emp
    if a.truthy then (Except.ok a, landingEvt doi :: evs1)
    else
      match download_via_linkinghub env (landingResp env doi).text with
      | (Except.error err, evs2) =>
        (Except.error err, landingEvt doi :: (evs1 ++ evs2))
      | (Except.ok d, evs2) =>
        (Except.ok (AbsVal.dict d), landingEvt doi :: (evs1 ++ evs2))

/-! ### The cache and `fetch` -/

/-- A cached aggregator-style payload: a dict whose entries (among them
`message`) are dicts of strings. -/
abbrev StrMap := List (String × String)
abbrev Payload := List (String × StrMap)

/-- Python `s.strip()`. -/
def pyStrip (s : String) : String :=
  String.mk (((s.data.dropWhile isPyWS).reverse.dropWhile isPyWS).reverse)

/-- The guard of the cache-hit branch of `fetch` (lines 253-255):
`resp_json and "message" in resp_json and "abstract" in
resp_json["message"]`; when it holds the abstract string is used. -/
def cacheHasAbstract (resp_json : Option Payload) : Option String :=
  match resp_json with
  | Option.none => Option.none
  | some p =>
    if p = [] then Option.none
    else
      match lookupD p "message" with
      | Option.none => Option.none
      | some m => lookupD m "abstract"

/-- Model of `AbstractFetcher.fetch` (lines 240-266), returning the
result (or raised exception) together with the GET events issued.  On
a cache hit the stripped abstract is parsed and returned if the dict
is truthy (`assert abstract`).  On a miss, `download_redirecting_page`
runs and then `.text` is taken on its return value — which is `None`,
a plain string or a dict, none of which has a `.text` attribute, so
the miss path always raises AttributeError after the downloads. -/
def fetchE (env : Env) (cache : List (String × Payload)) (doi : String) :
    Except PyErr (List (String × String)) × List ReqEvent :=
  match cacheHasAbstract (lookupD cache doi) with
  | some rawAbs =>
    let abstract_txt := pyStrip rawAbs
    let abstract := parse_abstract_from_incomplete_XML_str abstract_txt
    (if abstract = [] then Except.error PyErr.assertionError
      else Except.ok abstract, [])
  | Option.none =>
    match download_redirecting_page env doi with
    | (Except.error err, evs) => (Except.error err, evs)
    | (Except.ok _, evs) => (Except.error PyErr.attributeError, evs)

/-- Stateful `fetch`: the result of `fetchE` with the session state
advanced by the issued events. -/
def fetch (env : Env) (st : FetchState)
    (cache : List (String × Payload)) (doi : String) :
    Except PyErr (List (String × String)) × FetchState :=
  ((fetchE env cache doi).1, runEvents env st (fetchE env cache doi).2)

/-- A trivial environment for closed instances: every request 404s and
resolves nowhere. -/
def unitEnv : Env :=
  ⟨fun u => ⟨u, "", 404⟩, fun _ => ("", ""), fun _ => Option.none,
   fun _ => Option.none⟩

/-- The demo cache of the end-to-end scenario. -/
def demoCache : List (String × Payload) :=
  [("10.1000/demo",
    [("message", [("abstract", "<jats:p>Intro</jats:p> Body text.")])])]

/-- Adjacency of two fragments in a fragment list. -/
def AdjPair (frags : List String) (k v : String) : Prop :=
  ∃ i, frags.get? i = some k ∧ frags.get? (i + 1) = some v

/-- Invariant of the parser dict: every entry other than `full_text`
is an adjacent fragment pair in which the label does not end with a
period and the body does. -/
def GoodDict (frags : List String) (d : List (String × String)) : Prop :=
  ∀ k v, (k, v) ∈ d → k ≠ "full_text" →
    endsDot k = false ∧ endsDot v = true ∧ AdjPair frags k v

/-! ### Helper lemmas about the parser -/

theorem mk_data (s : String) : String.mk s.data = s := rfl

theorem matchPlus_eq_none {cs : List Char} (h : matchGroup cs = Option.none) :
    matchPlus cs = Option.none := by
  cases cs with
  | nil => rfl
  | cons c rest => simp [matchPlus, matchPlusF, h]

theorem hasTag_cons_false {c : Char} {rest : List Char}
    (h : hasTag (c :: rest) = false) :
    matchGroup (c :: rest) = Option.none ∧ hasTag rest = false := by
  have h' := h
  unfold hasTag at h'
  rcases hh : matchGroup (c :: rest) with _ | r
  · refine ⟨rfl, ?_⟩
    rw [hh] at h'
    simpa using h'
  · rw [hh] at h'
    simp at h'

theorem splitTagsF_no_tag : ∀ (n : Nat) (cs cur : List Char),
    hasTag cs = false → cs.length ≤ n →
    splitTagsF n cs cur = [cur.reverse ++ cs] := by
  intro n
  induction n with
  | zero =>
    intro cs cur _ hl
    have hnil : cs = [] := List.eq_nil_of_length_eq_zero (Nat.le_zero.mp hl)
    subst hnil
    rfl
  | succ n ih =>
    intro cs cur h hl
    cases cs with
    | nil => simp [splitTagsF]
    | cons c rest =>
      obtain ⟨h1, h2⟩ := hasTag_cons_false h
      have h3 : matchPlus (c :: rest) = Option.none := matchPlus_eq_none h1
      have h4 : rest.length ≤ n := by
        simpa [Nat.succ_le_succ_iff] using hl
      simp only [splitTagsF, h3]
      rw [ih rest (c :: cur) h2 h4]
      simp

theorem splitTags_no_tag (cs : List Char) (h : hasTag cs = false) :
    splitTags cs = [cs] := by
  unfold splitTags
  rw [splitTagsF_no_tag cs.length cs [] h (Nat.le_refl _)]
  rfl

theorem parse_no_tag (s : String) (h : hasTag s.data = false) :
    parse_abstract_from_incomplete_XML_str s = [("full_text", s)] := by
  have hfrag : fragmentsOf s = if s = "" then [] else [s] := by
    unfold fragmentsOf
    rw [splitTags_no_tag s.data h]
    by_cases hs : s = ""
    · subst hs
      simp
    · simp only [List.map_cons, List.map_nil, mk_data]
      rw [List.filter_cons]
      simp [hs]
  unfold parse_abstract_from_incomplete_XML_str
  rw [hfrag]
  by_cases hs : s = ""
  · subst hs
    simp [addLabels, joinSp]
  · simp only [if_neg hs]
    rfl

/-! ### Dict lemmas for the parser invariants -/

theorem dictInsert_mem {d : List (String × String)} {k v : String}
    {x : String × String} (hx : x ∈ dictInsert d k v) :
    x ∈ d ∨ x = (k, v) := by
  unfold dictInsert at hx
  by_cases hany : d.any (fun p => p.1 == k)
  · rw [if_pos hany] at hx
    obtain ⟨p, hp, he⟩ := List.mem_map.mp hx
    by_cases hpk : p.1 == k
    · right
      rw [if_pos hpk] at he
      exact he.symm
    · left
      rw [if_neg hpk] at he
      exact he ▸ hp
  · rw [if_neg hany] at hx
    rcases List.mem_append.mp hx with h | h
    · exact Or.inl h
    · right
      simpa using h

theorem isSome_map {α β : Type} (f : α → β) (o : Option α) :
    (o.map f).isSome = o.isSome := by
  cases o <;> rfl

theorem dictInsert_keeps {d : List (String × String)} {k v k' : String}
    (h : (lookupD d k').isSome = true) :
    (lookupD (dictInsert d k v) k').isSome = true := by
  unfold lookupD at h ⊢
  rw [isSome_map] at h ⊢
  rw [List.find?_isSome] at h ⊢
  obtain ⟨p, hp, hpk⟩ := h
  unfold dictInsert
  by_cases hany : d.any (fun q => q.1 == k)
  · rw [if_pos hany]
    refine ⟨if p.1 == k then (k, v) else p, List.mem_map.mpr ⟨p, hp, rfl⟩, ?_⟩
    by_cases hpk2 : p.1 == k
    · rw [if_pos hpk2]
      have h1 : p.1 = k' := by simpa using hpk
      have h2 : p.1 = k := by simpa using hpk2
      simp [← h1, ← h2]
    · rw [if_neg hpk2]
      exact hpk
  · rw [if_neg hany]
    exact ⟨p, List.mem_append.mpr (Or.inl hp), hpk⟩

theorem addLabels_keeps : ∀ (l : List String) (d : List (String × String))
    (k' : String), (lookupD d k').isSome = true →
    (lookupD (addLabels l d) k').isSome = true := by
  intro l
  induction l with
  | nil => intro d k' h; exact h
  | cons a tl ih =>
    intro d k' h
    cases tl with
    | nil => exact h
    | cons b rest =>
      show (lookupD (addLabels (b :: rest)
        (if endsDot b && !(endsDot a) then dictInsert d a b else d)) k').isSome
          = true
      by_cases hc : endsDot b && !(endsDot a)
      · rw [if_pos hc]
        exact ih _ k' (dictInsert_keeps h)
      · rw [if_neg hc]
        exact ih _ k' h

theorem addLabels_good : ∀ (l pre : List String) (frags : List String)
    (d : List (String × String)), frags = pre ++ l → GoodDict frags d →
    GoodDict frags (addLabels l d) := by
  intro l
  induction l with
  | nil => intro pre frags d _ hd; exact hd
  | cons a tl ih =>
    intro pre frags d hfr hd
    cases tl with
    | nil => exact hd
    | cons b rest =>
      show GoodDict frags (addLabels (b :: rest)
        (if endsDot b && !(endsDot a) then dictInsert d a b else d))
      have hfr2 : frags = (pre ++ [a]) ++ (b :: rest) := by
        rw [hfr]
        simp
      by_cases hc : endsDot b && !(endsDot a)
      · rw [if_pos hc]
        refine ih (pre ++ [a]) frags (dictInsert d a b) hfr2 ?_
        intro k v hkv hk
        rcases dictInsert_mem hkv with h | h
        · exact hd k v h hk
        · injection h with hk2 hv2
          subst hk2
          subst hv2
          have hc2 : endsDot v = true ∧ endsDot k = false := by
            constructor
            · exact (Bool.and_eq_true_iff.mp hc).1
            · simpa using (Bool.and_eq_true_iff.mp hc).2
          refine ⟨hc2.2, hc2.1, pre.length, ?_, ?_⟩
          · rw [hfr, List.get?_append_right (Nat.le_refl _)]
            simp
          · rw [hfr, List.get?_append_right (Nat.le_succ_of_le (Nat.le_refl _))]
            simp
      · rw [if_neg hc]
        exact ih (pre ++ [a]) frags d hfr2 hd

/-! ### Trace lemmas about the cascade -/

theorem dvl_trace (env : Env) (txt : String) :
    (download_via_linkinghub env txt).2 = [] ∨
    ∃ u, (download_via_linkinghub env txt).2
      = [⟨CallSite.scidir, u, true, 20⟩] := by
  unfold download_via_linkinghub
  cases h1 : env.soupInputValue txt with
  | none => left; rfl
  | some su =>
    cases h2 : findPii su.data with
    | none => left; simp [h2]
    | some pii =>
      right
      refine ⟨SCI_DIR_URL ++ String.mk pii, ?_⟩
      simp [h2, download_evt, String.mk]

theorem dfe_trace (env : Env) (doi : String) :
    (download_from_elsevier env doi).2
      = [⟨CallSite.elsevier, urlFor doi "ELSEVIER", true, 10⟩] := rfl

theorem drpStep1_trace (env : Env) (doi : String) :
    (drpStep1 env doi).2 = [] ∨
    ((drpStep1 env doi).2
        = [⟨CallSite.elsevier, urlFor doi "ELSEVIER", true, 10⟩]
      ∧ tldCond env doi) := by
  unfold drpStep1
  by_cases hc : tldCond env doi
  · right
    rw [if_pos hc]
    exact ⟨dfe_trace env doi, hc⟩
  · left
    rw [if_neg hc]

theorem drp_trace (env : Env) (doi : String) :
    ∃ rest, (download_redirecting_page env doi).2 = landingEvt doi :: rest
      ∧ ∀ e ∈ rest,
        (e = ⟨CallSite.elsevier, urlFor doi "ELSEVIER", true, 10⟩
            ∧ tldCond env doi)
          ∨ ∃ u, e = ⟨CallSite.scidir, u, true, 20⟩ := by
  have hmem1 : ∀ e ∈ (drpStep1 env doi).2,
      (e = ⟨CallSite.elsevier, urlFor doi "ELSEVIER", true, 10⟩
        ∧ tldCond env doi) ∨ ∃ u, e = ⟨CallSite.scidir, u, true, 20⟩ := by
    rcases drpStep1_trace env doi with h | ⟨h, hc⟩ <;> rw [h]
    · intro e he
      simp at he
    · intro e he
      left
      exact ⟨by simpa using he, hc⟩
  have hmem2 : ∀ e ∈ (download_via_linkinghub env (landingResp env doi).text).2,
      (e = ⟨CallSite.elsevier, urlFor doi "ELSEVIER", true, 10⟩
        ∧ tldCond env doi) ∨ ∃ u, e = ⟨CallSite.scidir, u, true, 20⟩ := by
    rcases dvl_trace env (landingResp env doi).text with h | ⟨u, h⟩ <;> rw [h]
    · intro e he
      simp at he
    · intro e he
      right
      exact ⟨u, by simpa using he⟩
  unfold download_redirecting_page
  rcases hp : drpStep1 env doi with ⟨res, evs1⟩
  rw [hp] at hmem1
  cases res with
  | error err => exact ⟨evs1, rfl, hmem1⟩
  | ok aOpt =>
    simp only []
    cases aOpt with
    | some s =>
      by_cases hs : (AbsVal.str s).truthy
      · rw [if_pos hs]
        exact ⟨evs1, rfl, hmem1⟩
      · rw [if_neg hs]
        rcases hv : download_via_linkinghub env (landingResp env doi).text
          with ⟨res2, evs2⟩
        rw [hv] at hmem2
        cases res2 with
        | error err =>
          refine ⟨evs1 ++ evs2, rfl, ?_⟩
          intro e he
          rcases List.mem_append.mp he with h | h
          · exact hmem1 e h
          · exact hmem2 e h
        | ok d =>
          refine ⟨evs1 ++ evs2, rfl, ?_⟩
          intro e he
          rcases List.mem_append.mp he with h | h
          · exact hmem1 e h
          · exact hmem2 e h
    | none =>
      rcases hv : download_via_linkinghub env (landingResp env doi).text
        with ⟨res2, evs2⟩
      rw [hv] at hmem2
      cases res2 with
      | error err =>
        refine ⟨evs1 ++ evs2, rfl, ?_⟩
        intro e he
        rcases List.mem_append.mp he with h | h
        · exact hmem1 e h
        · exact hmem2 e h
      | ok d =>
        refine ⟨evs1 ++ evs2, rfl, ?_⟩
        intro e he
        rcases List.mem_append.mp he with h | h
        · exact hmem1 e h
        · exact hmem2 e h

theorem fetchE_hit_trace (env : Env) (cache : List (String × Payload))
    (doi : String) (a : String)
    (h : cacheHasAbstract (lookupD cache doi) = some a) :
    (fetchE env cache doi).2 = [] := by
  unfold fetchE
  rw [h]

theorem fetchE_miss_trace (env : Env) (cache : List (String × Payload))
    (doi : String)
    (h : cacheHasAbstract (lookupD cache doi) = Option.none) :
    (fetchE env cache doi).2 = (download_redirecting_page env doi).2 := by
  unfold fetchE
  rw [h]
  rcases hp : download_redirecting_page env doi with ⟨res, evs⟩
  cases res <;> rfl

/-! ### Claim theorems -/

/-- C1: the claim states that the parser signals failure on an empty or
tags-only input and that `fetch` fails rather than returning a mapping
whose only entry is an empty `full_text`.  The code does the opposite:
the parser returns the one-entry dict with an empty `full_text`, and
`fetch` returns it as a success, because `assert abstract` tests dict
truthiness and the dict always contains the `full_text` key.  This
theorem evaluates the model at the failing inputs, exhibiting the
violation. -/
theorem C1_empty_extraction_returned_as_success :
    parse_abstract_from_incomplete_XML_str "" = [("full_text", "")]
    ∧ parse_abstract_from_incomplete_XML_str "<jats:p></jats:p>"
        = [("full_text", "")]
    ∧ (fetch unitEnv ⟨[], []⟩
        [("10.1000/demo", [("message", [("abstract", "<jats:p></jats:p>")])])]
        "10.1000/demo").1
      = Except.ok [("full_text", "")] :=
  ⟨rfl, rfl, rfl⟩

/-- C2: with the demo payload cached for DOI 10.1000/demo, `fetch`
returns a mapping whose `full_text` is "Intro Body text." and which
also maps "Intro" to "Body text." (the adjacency heuristic fires). -/
theorem C2_demo_cache_end_to_end :
    (fetch unitEnv ⟨[], []⟩ demoCache "10.1000/demo").1
      = Except.ok [("full_text", "Intro Body text."), ("Intro", "Body text.")]
    ∧ lookupD (parse_abstract_from_incomplete_XML_str
        "<jats:p>Intro</jats:p> Body text.") "full_text"
      = some "Intro Body text."
    ∧ lookupD (parse_abstract_from_incomplete_XML_str
        "<jats:p>Intro</jats:p> Body text.") "Intro"
      = some "Body text." :=
  ⟨rfl, rfl, rfl⟩

/-- C3: for every DOI whose cached payload is well formed (a `message`
entry containing an `abstract` field), `fetch` issues no GET request
and leaves the whole session state, the response log included,
unchanged. -/
theorem C3_cache_hit_no_network (env : Env) (st : FetchState)
    (cache : List (String × Payload)) (doi : String)
    (p : Payload) (m : StrMap) (a : String)
    (hp : lookupD cache doi = some p)
    (hm : lookupD p "message" = some m)
    (ha : lookupD m "abstract" = some a) :
    (fetch env st cache doi).2 = st := by
  have hne : ¬ p = [] := by
    intro h
    subst h
    simp [lookupD] at hm
  have hca : cacheHasAbstract (lookupD cache doi) = some a := by
    rw [hp]
    show (if p = [] then Option.none
      else
        match lookupD p "message" with
        | Option.none => Option.none
        | some m => lookupD m "abstract") = some a
    rw [if_neg hne, hm]
    exact ha
  unfold fetch
  rw [fetchE_hit_trace env cache doi a hca]
  unfold runEvents
  simp

theorem C3_witness :
    lookupD demoCache "10.1000/demo"
      = some [("message", [("abstract", "<jats:p>Intro</jats:p> Body text.")])]
    ∧ (fetch unitEnv ⟨[], []⟩ demoCache "10.1000/demo").2 = ⟨[], []⟩ :=
  ⟨rfl, C3_cache_hit_no_network unitEnv ⟨[], []⟩ demoCache "10.1000/demo"
    [("message", [("abstract", "<jats:p>Intro</jats:p> Body text.")])]
    [("abstract", "<jats:p>Intro</jats:p> Body text.")]
    "<jats:p>Intro</jats:p> Body text." rfl rfl rfl⟩

/-- C4: when the cache-hit guard fails, the first request `fetch`
issues is the landing-page GET, and an Elsevier (publisher-specific)
request can only appear later in the trace, and only when the landing
page resolved to domain elsevier with subdomain linkinghub. -/
theorem C4_landing_page_before_publisher (env : Env) (st : FetchState)
    (cache : List (String × Payload)) (doi : String)
    (h : cacheHasAbstract (lookupD cache doi) = Option.none) :
    ∃ rest, (fetch env st cache doi).2.trace
        = st.trace ++ (⟨CallSite.landing, urlFor doi "DOI", true, 10⟩ :: rest)
      ∧ ∀ e ∈ rest, e.site = CallSite.elsevier → tldCond env doi := by
  obtain ⟨rest, hr, hmem⟩ := drp_trace env doi
  refine ⟨rest, ?_, ?_⟩
  · have htr : (fetch env st cache doi).2.trace
        = st.trace ++ (fetchE env cache doi).2 := rfl
    rw [htr, fetchE_miss_trace env cache doi h, hr]
    rfl
  · intro e he hsite
    rcases hmem e he with ⟨heq, hc⟩ | ⟨u, heq⟩
    · exact hc
    · rw [heq] at hsite
      cases hsite

theorem C4_witness :
    cacheHasAbstract (lookupD ([] : List (String × Payload)) "10.1/x")
        = Option.none
    ∧ ∃ rest, (fetch unitEnv ⟨[], []⟩ [] "10.1/x").2.trace
        = ([] : List ReqEvent)
          ++ (⟨CallSite.landing, urlFor "10.1/x" "DOI", true, 10⟩ :: rest)
      ∧ ∀ e ∈ rest, e.site = CallSite.elsevier → tldCond unitEnv "10.1/x" :=
  ⟨rfl, C4_landing_page_before_publisher unitEnv ⟨[], []⟩ [] "10.1/x" rfl⟩

/-- C5: an input with no substring matching the pseudo-XML tag pattern
parses to a dict whose only entry is `full_text`, equal to the input. -/
theorem C5_no_tags_roundtrip (t : String) (h : hasTag t.data = false) :
    parse_abstract_from_incomplete_XML_str t = [("full_text", t)] :=
  parse_no_tag t h

theorem C5_witness :
    hasTag ("The experiment worked.".data) = false
    ∧ parse_abstract_from_incomplete_XML_str "The experiment worked."
      = [("full_text", "The experiment worked.")] :=
  ⟨by decide, C5_no_tags_roundtrip "The experiment worked." (by decide)⟩

/-- C6 counterexample: the claim asserts that after a first parse no
tag-pattern match remains in `full_text`, so a second parse never
produces an extra label.  For the input below a newline interrupts a
would-be tag, the fragments keep raw markup characters, and the
rejoined `full_text` "Intro <a b:c>Body." does contain a tag-pattern
match, so re-parsing it produces the extra label Intro -> "Body.". -/
theorem C6_counterexample :
    lookupD (parse_abstract_from_incomplete_XML_str
        "Intro<p:q><a\n<p:q>b:c>Body.") "full_text"
      = some "Intro <a b:c>Body."
    ∧ lookupD (parse_abstract_from_incomplete_XML_str
        "Intro <a b:c>Body.") "Intro" = some "Body."
    ∧ ("Intro" : String) ≠ "full_text" :=
  ⟨rfl, rfl, by decide⟩

/-- C6 (amended): if no tag-pattern match remains in the `full_text` of
a parse result — which can fail when a newline interrupts a would-be
tag, see the counterexample — then re-parsing that `full_text` yields
the single fragment `full_text` itself and no additional labels. -/
theorem C6_reparse_no_tags (t ft : String)
    (_h1 : lookupD (parse_abstract_from_incomplete_XML_str t) "full_text"
      = some ft)
    (h2 : hasTag ft.data = false) :
    parse_abstract_from_incomplete_XML_str ft = [("full_text", ft)] :=
  parse_no_tag ft h2

theorem C6_witness :
    lookupD (parse_abstract_from_incomplete_XML_str "A<x:y>B.") "full_text"
      = some "A B."
    ∧ hasTag ("A B.".data) = false
    ∧ parse_abstract_from_incomplete_XML_str "A B." = [("full_text", "A B.")] :=
  ⟨rfl, by decide, C6_reparse_no_tags "A<x:y>B." "A B." rfl (by decide)⟩

/-- C7: `doi2url` looks its domain key up case-insensitively (any two
spellings with the same uppercasing resolve alike, and any key whose
uppercasing is in the table succeeds), and fails — the KeyError that
the spec taxonomy calls ConfigurationError, modelled as `Option.none` —
exactly when the uppercased key is absent from the table. -/
theorem C7_domain_lookup :
    (∀ doi d1 d2, pyUpper d1 = pyUpper d2 →
      doi2url doi d1 = doi2url doi d2)
    ∧ (∀ doi d, (DOI_2_DOMAIN.any fun p => p.1 == pyUpper d) = true →
        (doi2url doi d).isSome = true)
    ∧ (∀ doi d, (DOI_2_DOMAIN.any fun p => p.1 == pyUpper d) = false →
        doi2url doi d = Option.none) := by
  refine ⟨?_, ?_, ?_⟩
  · intro doi d1 d2 h
    unfold doi2url
    rw [h]
  · intro doi d h
    obtain ⟨x, hx, hp⟩ := List.any_eq_true.mp h
    unfold doi2url lookupD
    rcases hfind : DOI_2_DOMAIN.find? (fun p => p.1 == pyUpper d) with _ | y
    · exfalso
      rw [List.find?_eq_none] at hfind
      exact absurd hp (by simpa using hfind x hx)
    · rw [hfind]
      rfl
  · intro doi d h
    unfold doi2url lookupD
    have hn : DOI_2_DOMAIN.find? (fun p => p.1 == pyUpper d)
        = Option.none := by
      rw [List.find?_eq_none]
      intro x hx
      have := List.any_eq_false.mp h
      simpa using this x hx
    rw [hn]
    rfl

theorem C7_witness :
    pyUpper "crossref" = pyUpper "CrossRef"
    ∧ doi2url "10.1000/xyz" "crossref" = doi2url "10.1000/xyz" "CrossRef"
    ∧ (DOI_2_DOMAIN.any fun p => p.1 == pyUpper "crossref") = true
    ∧ (doi2url "10.1000/xyz" "crossref").isSome = true
    ∧ (DOI_2_DOMAIN.any fun p => p.1 == pyUpper "elsevier") = false
    ∧ doi2url "10.1000/xyz" "elsevier" = Option.none :=
  ⟨by decide,
   C7_domain_lookup.1 "10.1000/xyz" "crossref" "CrossRef" (by decide),
   by decide,
   C7_domain_lookup.2.1 "10.1000/xyz" "crossref" (by decide),
   by decide,
   C7_domain_lookup.2.2 "10.1000/xyz" "elsevier" (by decide)⟩

/-- C8: `Downloader.get` appends exactly the received response to the
log and returns it as the new last element, and every `fetch` call only
extends the log: the new state is the old one plus the responses of the
newly issued requests, in request order, with the old entries kept
verbatim. -/
theorem C8_response_log_append_only :
    (∀ (env : Env) (st : FetchState) (e : ReqEvent),
      (Downloader.get env st e).2.responses
          = st.responses ++ [(Downloader.get env st e).1]
        ∧ (Downloader.get env st e).2.responses.getLast?
          = some (Downloader.get env st e).1
        ∧ (Downloader.get env st e).2.trace = st.trace ++ [e])
    ∧ (∀ (env : Env) (st : FetchState) (cache : List (String × Payload))
        (doi : String), ∃ evs,
        (fetch env st cache doi).2.trace = st.trace ++ evs
        ∧ (fetch env st cache doi).2.responses
          = st.responses ++ evs.map (fun e => env.respond e.url)) := by
  constructor
  · intro env st e
    refine ⟨rfl, ?_, rfl⟩
    simp [Downloader.get]
  · intro env st cache doi
    exact ⟨(fetchE env cache doi).2, rfl, rfl⟩

/-- C9: `download` fills in `allow_redirects=True` and `timeout=10`
when the caller passes no explicit values, and every request in a
`fetch` trace carries these defaults except the second-hop
sciencedirect request, which is issued with `timeout=20`. -/
theorem C9_request_defaults :
    (∀ (site : CallSite) (url : String),
      download_evt site url Option.none Option.none = ⟨site, url, true, 10⟩)
    ∧ (∀ (env : Env) (st : FetchState) (cache : List (String × Payload))
        (doi : String) (e : ReqEvent),
        e ∈ (fetch env st cache doi).2.trace → e ∈ st.trace ∨
          (e.allow_redirects = true
            ∧ (e.site = CallSite.scidir → e.timeout = 20)
            ∧ (e.site ≠ CallSite.scidir → e.timeout = 10))) := by
  constructor
  · intro site url
    rfl
  · intro env st cache doi e he
    have htr : (fetch env st cache doi).2.trace
        = st.trace ++ (fetchE env cache doi).2 := rfl
    rw [htr] at he
    rcases List.mem_append.mp he with h | h
    · exact Or.inl h
    right
    cases hca : cacheHasAbstract (lookupD cache doi) with
    | some a =>
      rw [fetchE_hit_trace env cache doi a hca] at h
      simp at h
    | none =>
      rw [fetchE_miss_trace env cache doi hca] at h
      obtain ⟨rest, hr, hmem⟩ := drp_trace env doi
      rw [hr] at h
      rcases List.mem_cons.mp h with h | h
      · subst h
        simp [landingEvt, download_evt]
      · rcases hmem e h with ⟨heq, _⟩ | ⟨u, heq⟩ <;> subst heq <;> simp

theorem C9_witness :
    (⟨CallSite.landing, "https://doi.org/10.1/x", true, 10⟩ : ReqEvent)
        ∈ (fetch unitEnv ⟨[], []⟩ [] "10.1/x").2.trace
    ∧ ((⟨CallSite.landing, "https://doi.org/10.1/x", true, 10⟩ : ReqEvent)
          ∈ (⟨[], []⟩ : FetchState).trace
        ∨ ((true : Bool) = true
            ∧ (CallSite.landing = CallSite.scidir → (10 : Nat) = 20)
            ∧ (CallSite.landing ≠ CallSite.scidir → (10 : Nat) = 10))) :=
  ⟨by decide,
   C9_request_defaults.2 unitEnv ⟨[], []⟩ [] "10.1/x"
     ⟨CallSite.landing, "https://doi.org/10.1/x", true, 10⟩ (by decide)⟩

/-- C10: the parser is total and its result always contains the
`full_text` key; every other entry pairs a fragment that does not end
with a period with the immediately following fragment, which does.  -/
theorem C10_parser_label_shape (t : String) :
    (lookupD (parse_abstract_from_incomplete_XML_str t) "full_text").isSome
        = true
    ∧ ∀ k v, (k, v) ∈ parse_abstract_from_incomplete_XML_str t →
        k ≠ "full_text" →
        endsDot k = false ∧ endsDot v = true
          ∧ AdjPair (fragmentsOf t) k v := by
  constructor
  · unfold parse_abstract_from_incomplete_XML_str
    apply addLabels_keeps
    rfl
  · intro k v hkv hk
    unfold parse_abstract_from_incomplete_XML_str at hkv
    have hg : GoodDict (fragmentsOf t)
        (addLabels (fragmentsOf t)
          [("full_text", joinSp (fragmentsOf t))]) := by
      refine addLabels_good (fragmentsOf t) [] (fragmentsOf t) _ (by simp) ?_
      intro k' v' hkv' hk'
      simp at hkv'
      exact absurd hkv'.1 hk'
    exact hg k v hkv hk

theorem C10_witness :
    (lookupD (parse_abstract_from_incomplete_XML_str "Aims<q:r>We did it.")
        "full_text").isSome = true
    ∧ (("Aims", "We did it.")
        ∈ parse_abstract_from_incomplete_XML_str "Aims<q:r>We did it.")
    ∧ (endsDot "Aims" = false ∧ endsDot "We did it." = true
        ∧ AdjPair (fragmentsOf "Aims<q:r>We did it.") "Aims" "We did it.") :=
  ⟨(C10_parser_label_shape "Aims<q:r>We did it.").1,
   by decide,
   (C10_parser_label_shape "Aims<q:r>We did it.").2 "Aims" "We did it."
     (by decide) (by decide)⟩

end Knower
